import Mathlib

/-!
Verification of the magepack (ESM edition) bundling and deployment engine.

This file gives a shallow embedding, in Lean 4, of the parts of the source
that the frozen claims talk about:

* `lib/bundle.js`           — `injectConfigIntoMain`, `buildRequireConfigContent`,
                              `processLocale` (deployment flow over one locale);
* `lib/bundle/processor.js` — `resolveFile`, `processBundle`;
* `lib/bundle/moduleMapResolver.js`
                            — the requirejs-map path resolver (first unit of the
                              file) and the module wrapper / normalizer
                              (second unit: `isNonAmd`, `isAnonymousAmd`,
                              `isText`, `wrapText`, `wrapNonAmd`,
                              `wrapAnonymousAmd`, default dispatcher);
* `lib/generate/extractCommonBundle.js`
                            — the bundle classifier (vendor / common split).

Strings are modelled as `List Char` throughout (`LC`), so that every string
operation used by the source (regex-like scans, trim, marker stripping,
path joining) is an executable structural recursion that the kernel can
evaluate inside `decide`.

External libraries are modelled at their interface:

* `acorn` parse results are carried alongside the raw text in `JsSource`
  (`ast = none` models a parse failure in both the module and the script
  dialect); the AST itself is the inductive `Jx`, whose child lists are
  encoded with the `jnil` / `jcons` constructors so that every recursion
  over it is structural;
* `terser` is modelled as an order-preserving concatenation of its input
  source map (no claim depends on the minified text itself);
* `jsesc` is modelled for the escapes relevant to this code base.

The asynchronous `Promise.all` fan-out in `processBundle` inserts each
module into the accumulator object at the moment its reads complete, so the
accumulation is parameterised by a completion schedule (a permutation of the
declared module names).  Filesystem state is a path-to-value association
list, and the deployment flow of `processLocale` is reified as a list of
filesystem operations whose prefixes are the reachable on-disk states.
-/

set_option maxRecDepth 40000

/-- Strings of the modelled JavaScript, as lists of characters. -/
abbrev LC := List Char

/-! ## Generic list and string helpers -/

/-- First index at which `pat` occurs as a contiguous sublist of `hay`
(the JavaScript `String.indexOf` / leftmost regex match position). -/
def firstOccur (pat : LC) : LC → Option Nat
  | [] => if pat = [] then some 0 else none
  | c :: rest =>
    if pat.isPrefixOf (c :: rest) then some 0
    else (firstOccur pat rest).map (· + 1)

/-- Whitespace for the purposes of JavaScript `String.prototype.trim`
(ASCII subset; the modelled file contents are ASCII). -/
def isJsWs (c : Char) : Bool :=
  c = ' ' || c = '\t' || c = '\n' || c = '\r' || c = '\x0b' || c = '\x0c'

/-- Drop leading JavaScript whitespace. -/
def trimL (l : LC) : LC := l.dropWhile isJsWs

/-- Drop trailing JavaScript whitespace. -/
def trimR (l : LC) : LC := (l.reverse.dropWhile isJsWs).reverse

/-- JavaScript `String.prototype.trim`. -/
def jsTrim (l : LC) : LC := trimL (trimR l)

/-- Join a list of strings with a separator character
(JavaScript `Array.prototype.join`). -/
def joinWith (sep : Char) : List LC → LC
  | [] => []
  | [x] => x
  | x :: y :: rest => x ++ sep :: joinWith sep (y :: rest)

/-- Lookup in an association list keyed by strings (reading `obj[key]`
on a plain JavaScript object, prototype chain not modelled). -/
def assocLookup {α : Type} (l : List (LC × α)) (k : LC) : Option α :=
  (l.find? (fun p => p.1 = k)).map Prod.snd

/-- JavaScript truthiness of a string-valued property read: the key must be
present and its value must be a non-empty string. -/
def truthy (o : Option LC) : Bool :=
  match o with
  | some s => s ≠ []
  | none => false

/-- `obj[k] = v` on a plain JavaScript object: an existing key keeps its
insertion position and gets the new value, a fresh key is appended. -/
def jsObjSet {α : Type} (l : List (LC × α)) (k : LC) (v : α) : List (LC × α) :=
  if (l.find? (fun p => p.1 = k)).isSome then
    l.map (fun p => if p.1 = k then (k, v) else p)
  else l ++ [(k, v)]

/-- `path.join(a, b)` as used by the source: empty segments are ignored,
non-empty segments are joined with a slash.  (Node additionally normalises
`.` and `..` segments; no path handled by the claims contains those.) -/
def pathJoin (a b : LC) : LC :=
  if a = [] then b else if b = [] then a else a ++ '/' :: b

/-- Split a path on `/` (helper for `path.relative`). -/
def splitSlash : LC → List LC
  | [] => [[]]
  | c :: rest =>
    if c = '/' then [] :: splitSlash rest
    else match splitSlash rest with
      | [] => [[c]]
      | s :: ss => (c :: s) :: ss

/-- Drop the common leading segments of two segment lists. -/
def dropCommon : List LC → List LC → (List LC × List LC)
  | a :: as_, b :: bs =>
    if a = b then dropCommon as_ bs else (a :: as_, b :: bs)
  | as_, bs => (as_, bs)

/-- `path.relative(fromDir, toPath)` for the already-absolute paths the
source feeds it: strip the common prefix, go up with `..` segments, then
down into the target. -/
def pathRelative (fromDir toPath : LC) : LC :=
  let (fa, ta) := dropCommon (splitSlash fromDir) (splitSlash toPath)
  joinWith '/' (fa.map (fun _ => ['.', '.']) ++ ta)

/-! ## Config injection (`lib/bundle.js`, `injectConfigIntoMain`) -/

/-- The start marker delimiting a previously injected fragment. -/
def startMarker : LC := "/* MAGEPACK START */".data

/-- The end marker delimiting a previously injected fragment. -/
def endMarker : LC := "/* MAGEPACK END */".data

/-- One pass of the global regex replace
`new RegExp("\\n?" + start + "[\\s\\S]*?" + end, "g")` with the empty
replacement, fuelled so the recursion is structural: find the leftmost
start marker that still has an end marker after it, absorb at most one
newline directly before it, remove lazily through the first end marker,
and continue after the removed region. -/
def stripInjectedFuel : Nat → LC → LC
  | 0, s => s
  | fuel + 1, s =>
    match firstOccur startMarker s with
    | none => s
    | some j =>
      match firstOccur endMarker (s.drop (j + startMarker.length)) with
      | none => s
      | some e =>
        let matchStart :=
          if 0 < j ∧ s.get? (j - 1) = some '\n' then j - 1 else j
        s.take matchStart ++
          stripInjectedFuel fuel (s.drop (j + startMarker.length + e + endMarker.length))

/-- `mainConfig.replace(cleanRegex, '')`: remove every marker-delimited
fragment.  Each removal consumes at least the two markers, so the length of
the string bounds the number of removals. -/
def stripInjected (s : LC) : LC := stripInjectedFuel s.length s

/-- The injected block of `injectConfigIntoMain`:
a newline, the start marker, a newline, the fragment, a newline and the
end marker. -/
def injectionBlock (frag : LC) : LC :=
  '\n' :: (startMarker ++ '\n' :: (frag ++ '\n' :: endMarker))

/-- `injectConfigIntoMain` (lib/bundle.js): strip every previously injected
fragment, trim, then append a semicolon, a newline and the new block. -/
def injectConfigIntoMain (mainConfig frag : LC) : LC :=
  jsTrim (stripInjected mainConfig) ++ ';' :: '\n' :: injectionBlock frag

/-! ## Bundle classifier (`lib/generate/extractCommonBundle.js`) -/

/-- A bundle definition: a name and an ordered module map
(insertion-ordered object, here an association list). -/
structure JBundle where
  name : LC
  modules : List (LC × LC)
deriving DecidableEq

/-- `Object.keys(bundle.modules)`. -/
def keysOf (b : JBundle) : List LC := b.modules.map Prod.fst

/-- Strip a requirejs plugin prefix: the regex `^[^!]+!` removes everything
through the first `!` provided at least one non-`!` character precedes it. -/
def stripPlugin (m : LC) : LC :=
  match m with
  | [] => []
  | c :: rest =>
    if c = '!' then m
    else
      match dropThroughBang rest with
      | some r => r
      | none => m
where
  dropThroughBang : LC → Option LC
    | [] => none
    | c :: r => if c = '!' then some r else dropThroughBang r

/-- Strip a trailing `.js` (the regex `\.js$`). -/
def stripJsExt (m : LC) : LC :=
  if ".js".data.isSuffixOf m then m.take (m.length - 3) else m

/-- `cleanModuleName`: remove the plugin prefix, then the `.js` extension. -/
def cleanModuleName (m : LC) : LC := stripJsExt (stripPlugin m)

/-- `CRITICAL_EXACT_MODULES` (vendor-forced exact names). -/
def criticalExactModules : List LC :=
  ["Magento_PageCache/js/form-key-provider".data,
   "Magento_Theme/js/responsive".data,
   "Magento_Theme/js/theme".data,
   "Magento_Translation/js/mage-translation-dictionary".data,
   "Magento_Ui/js/core/app".data,
   "Magento_Ui/js/modal/modal".data,
   "mage/requirejs/resolver".data]

/-- `CRITICAL_PATTERN_MODULES`: the disjunction of the regular expressions
identifying core infrastructure, each translated literally. -/
def criticalPatternTest (s : LC) : Bool :=
  ("mage/".data.isPrefixOf s && !("mage/calendar".data.isPrefixOf s)
      && !("mage/gallery".data.isPrefixOf s))
  || "requirejs/".data.isPrefixOf s
  || s = "text".data
  || s = "domReady".data
  || s = "jquery/jquery.js".data
  || s = "jquery/jquery.min.js".data
  || "jquery/jquery-migrate".data.isPrefixOf s
  || "jquery/jquery-storageapi".data.isPrefixOf s
  || s = "underscore".data
  || s = "knockoutjs/knockout".data

/-- `isCriticalInfrastructure`: exact-set membership, then the patterns. -/
def isCriticalInfrastructure (clean : LC) : Bool :=
  criticalExactModules.contains clean || criticalPatternTest clean

/-- `MANUAL_COMMON_MODULES` (empty in the source). -/
def manualCommonModules : List LC := []

/-- `isExplicitlyCommon`. -/
def isExplicitlyCommon (m : LC) : Bool :=
  manualCommonModules.contains (cleanModuleName m)

/-- Case-insensitive test of the regex `\.(html|json)$`. -/
def endsWithHtmlJson (s : LC) : Bool :=
  ".html".data.isSuffixOf (s.map Char.toLower)
  || ".json".data.isSuffixOf (s.map Char.toLower)

/-- ASCII uppercase letter. -/
def isUpperAZ (c : Char) : Bool := 'A' ≤ c && c ≤ 'Z'

/-- ASCII alphanumeric character (the regex class `[a-zA-Z0-9]`). -/
def isAlnumAZ (c : Char) : Bool :=
  ('A' ≤ c && c ≤ 'Z') || ('a' ≤ c && c ≤ 'z') || ('0' ≤ c && c ≤ '9')

/-- After `[A-Z][a-zA-Z0-9]` of the second name part: scan further
alphanumerics until the required `/`. -/
def mmP2tail : LC → Bool
  | [] => false
  | c :: r => if c = '/' then true else if isAlnumAZ c then mmP2tail r else false

/-- The second `[A-Z][a-zA-Z0-9]+\/` part of the Magento module regex. -/
def mmPart2 : LC → Bool
  | u :: c :: r => isUpperAZ u && isAlnumAZ c && mmP2tail r
  | _ => false

/-- After `[A-Z][a-zA-Z0-9]` of the first name part: scan further
alphanumerics until the required `_`, then match the second part. -/
def mmP1tail : LC → Bool
  | [] => false
  | c :: r => if c = '_' then mmPart2 r else if isAlnumAZ c then mmP1tail r else false

/-- `MAGENTO_MODULE_REGEX` (`^[A-Z][a-zA-Z0-9]+_[A-Z][a-zA-Z0-9]+\/`):
the character classes are disjoint from `_` and `/`, so the scan is
deterministic and needs no backtracking. -/
def magentoModuleTest : LC → Bool
  | u :: c :: r => isUpperAZ u && isAlnumAZ c && mmP1tail r
  | _ => false

/-- Destination of a promoted module. -/
inductive BTarget where
  | vendor
  | common
deriving DecidableEq

/-- `getTargetBundleType`. -/
def getTargetBundleType (clean : LC) : BTarget :=
  if endsWithHtmlJson clean then .common
  else if isCriticalInfrastructure clean then .vendor
  else if magentoModuleTest clean then .common
  else .vendor

/-- Usage count of a module name: the classifier iterates `Object.keys` of
every bundle and increments once per key occurrence. -/
def usageCount (bundles : List JBundle) (m : LC) : Nat :=
  (bundles.map (fun b => (keysOf b).count m)).sum

/-- `MIN_USAGE_THRESHOLD`. -/
def minUsageThreshold : Nat := 2

/-- Insertion-ordered set of all module names (`globalOrder`, a `Set`
filled while scanning the bundles in order). -/
def firstSeenAux (seen : List LC) : List LC → List LC
  | [] => []
  | m :: rest =>
    if m ∈ seen then firstSeenAux seen rest
    else m :: firstSeenAux (m :: seen) rest

/-- All module names in first-seen discovery order. -/
def globalOrder (bundles : List JBundle) : List LC :=
  firstSeenAux [] (bundles.flatMap keysOf)

/-- The per-module promotion decision of the classification loop:
`none` when the module stays where it is, `some (path, target)` when it is
promoted, recording the authoritative path (from the first bundle whose
entry for the module is truthy) and the destination. -/
def promoteDecision (bundles : List JBundle) (m : LC) : Option (LC × BTarget) :=
  let clean := cleanModuleName m
  let isForcedVendor := isCriticalInfrastructure clean
  let isShared := minUsageThreshold ≤ usageCount bundles m
  let isConfigured := isExplicitlyCommon m
  if isForcedVendor || isShared || isConfigured then
    match bundles.find? (fun b => truthy (assocLookup b.modules m)) with
    | none => none
    | some b =>
      let modulePath := (assocLookup b.modules m).getD []
      let target := getTargetBundleType clean
      if isForcedVendor || (target = BTarget.vendor && (isShared || isConfigured))
      then some (modulePath, .vendor)
      else some (modulePath, .common)
  else none

/-- One iteration of the classification loop: route a promoted module into
the vendor or the common map. -/
def classifyStep (bundles : List JBundle)
    (acc : List (LC × LC) × List (LC × LC)) (m : LC) :
    List (LC × LC) × List (LC × LC) :=
  match promoteDecision bundles m with
  | some (p, .vendor) => (acc.1 ++ [(m, p)], acc.2)
  | some (p, .common) => (acc.1, acc.2 ++ [(m, p)])
  | none => acc

/-- The classification loop over `globalOrder`, building the vendor and
common module maps (ES6 `Map`s, hence insertion-ordered). -/
def classifyModules (bundles : List JBundle) : List (LC × LC) × List (LC × LC) :=
  (globalOrder bundles).foldl (classifyStep bundles) ([], [])

/-- Remove the promoted keys from a page bundle (the cleanup pass
`delete bundle.modules[key]`). -/
def cleanBundle (keysToRemove : List LC) (b : JBundle) : JBundle :=
  { b with modules := b.modules.filter (fun p => decide (p.1 ∉ keysToRemove)) }

/-- `extractCommonBundle` (default export): classify, clean, and prepend
the synthetic `vendor` and `common` bundles. -/
def extractCommonBundle (bundles : List JBundle) : List JBundle :=
  let vc := classifyModules bundles
  let keysToRemove := vc.1.map Prod.fst ++ vc.2.map Prod.fst
  JBundle.mk "vendor".data vc.1 ::
    JBundle.mk "common".data vc.2 ::
      bundles.map (cleanBundle keysToRemove)

/-! ## JavaScript AST model (acorn parse results)

Child lists are encoded with the `jnil` / `jcons` constructors of the same
inductive so that every recursion over the tree is structural (and hence
kernel-evaluable).  The `start` fields mirror acorn's `node.start`
character offsets into the source text. -/

inductive Jx where
  | strLit (s : LC) (start : Nat)
  | otherLit (start : Nat)
  | ident (name : LC) (start : Nat)
  | member (obj prop : Jx) (computed : Bool) (start : Nat)
  | call (callee args : Jx) (start : Nat)
  | objE (props : Jx) (start : Nat)
  | propNode (computed : Bool) (key value : Jx)
  | arrayE (elems : Jx) (start : Nat)
  | fnE (body : Jx) (start : Nat)
  | seqE (body : Jx)
  | jnil
  | jcons (head tail : Jx)
deriving DecidableEq

/-- acorn's `node.start` of an expression node. -/
def Jx.startPos : Jx → Nat
  | .strLit _ s => s
  | .otherLit s => s
  | .ident _ s => s
  | .member _ _ _ s => s
  | .call _ _ s => s
  | .objE _ s => s
  | .arrayE _ s => s
  | .fnE _ s => s
  | .propNode _ _ _ => 0
  | .seqE _ => 0
  | .jnil => 0
  | .jcons _ _ => 0

/-- The first element of a `jnil`/`jcons` encoded node list
(`node.arguments[0]`). -/
def Jx.argsHead : Jx → Option Jx
  | .jcons h _ => some h
  | _ => none

/-- All `CallExpression` nodes of a tree in the order `acorn-walk`'s
`walk.simple` fires its callback: children before the node itself
(the base walker recurses first, then invokes the visitor). -/
def collectCalls : Jx → List Jx
  | .strLit _ _ => []
  | .otherLit _ => []
  | .ident _ _ => []
  | .member o p _ _ => collectCalls o ++ collectCalls p
  | .call c args s => collectCalls c ++ collectCalls args ++ [.call c args s]
  | .objE props _ => collectCalls props
  | .propNode _ k v => collectCalls k ++ collectCalls v
  | .arrayE es _ => collectCalls es
  | .fnE b _ => collectCalls b
  | .seqE b => collectCalls b
  | .jnil => []
  | .jcons h t => collectCalls h ++ collectCalls t

/-- A source text together with acorn's parse of it; `ast = none` models a
parse failure in both the module and the script dialect (`parseAst`
returning `null`). -/
structure JsSource where
  text : LC
  ast : Option Jx
deriving DecidableEq

/-! ## Module normalizer (`lib/bundle/moduleMapResolver.js`, wrapper unit) -/

/-- Whether a call expression is `define(...)`
(callee an `Identifier` named `define`). -/
def isDefineCallNode : Jx → Bool
  | .call (.ident n _) _ _ => n = "define".data
  | _ => false

/-- Whether a call expression is an anonymous `define`: at least one
argument, and the first argument is not a string literal. -/
def isAnonDefineNode : Jx → Bool
  | .call (.ident n _) args _ =>
    n = "define".data &&
      (match args.argsHead with
       | some (.strLit _ _) => false
       | some _ => true
       | none => false)
  | _ => false

/-- `isNonAmd`: unparseable sources count as non-AMD (fail-safe), otherwise
the walker looks for any `define` call. -/
def isNonAmd (src : JsSource) : Bool :=
  match src.ast with
  | none => true
  | some a => !((collectCalls a).any isDefineCallNode)

/-- `isAnonymousAmd`: unparseable sources are not anonymous AMD, otherwise
the walker looks for any anonymous `define` call. -/
def isAnonymousAmd (src : JsSource) : Bool :=
  match src.ast with
  | none => false
  | some a => (collectCalls a).any isAnonDefineNode

/-- The repeated `require.s.contexts._.config.shim['<name>']` lookup of the
non-AMD wrapper template. -/
def shimRef (name : LC) : LC :=
  "require.s.contexts._.config.shim[\x27".data ++ name ++ "\x27]".data

/-- `wrapNonAmd`: the named definition wrapping a legacy script, with the
dependency list and export value deferred to the runtime shim lookup and
the global object bound as the wrapper's `this`. -/
def wrapNonAmd (name content : LC) : LC :=
  "define(\x27".data ++ name ++ "\x27, (".data ++ shimRef name
    ++ " && ".data ++ shimRef name ++ ".deps || []), function() \x7b\n\n    ".data
    ++ content
    ++ "\n\n    return (".data ++ shimRef name ++ " && ".data ++ shimRef name
    ++ ".exportsFn && ".data ++ shimRef name
    ++ ".exportsFn());\n\x7d.bind(window));".data

/-- Model of the external `jsesc` library for the characters occurring in
this code base: escape backslashes, single quotes, newlines and carriage
returns.  (No claim depends on the escaping itself.) -/
def jsescModel : LC → LC
  | [] => []
  | c :: rest =>
    if c = '\\' then '\\' :: '\\' :: jsescModel rest
    else if c = '\x27' then '\\' :: '\x27' :: jsescModel rest
    else if c = '\n' then '\\' :: 'n' :: jsescModel rest
    else if c = '\r' then '\\' :: 'r' :: jsescModel rest
    else c :: jsescModel rest

/-- `wrapText`: a named definition returning the escaped content. -/
def wrapText (name content : LC) : LC :=
  "define(\x27".data ++ name ++ "\x27, function() \x7b\n    return \x27".data
    ++ jsescModel content ++ "\x27;\n\x7d);".data

/-- `isTextPluginModuleId`: requirejs plugin syntax `text!resource`. -/
def isTextPluginModuleId (name : LC) : Bool :=
  "text!".data.isPrefixOf name

/-- `isTextFilePath`: strip any query or hash suffix, lowercase, and test
the text-resource extensions. -/
def isTextFilePath (p : LC) : Bool :=
  if p = [] then false
  else
    let clean := ((p.takeWhile (· ≠ '?')).takeWhile (· ≠ '#')).map Char.toLower
    ".html".data.isSuffixOf clean
    || ".htm".data.isSuffixOf clean
    || ".json".data.isSuffixOf clean
    || ".txt".data.isSuffixOf clean
    || ".svg".data.isSuffixOf clean
    || ".css".data.isSuffixOf clean

/-- `isText` (wrapper unit): file-path extension first, then the plugin
tag on the module id. -/
def isText (name path : LC) : Bool :=
  isTextFilePath path || isTextPluginModuleId name

/-- `MagicString#appendLeft` followed by `toString` for a single
insertion: splice `ins` into `txt` at character offset `pos`. -/
def insertAt (txt : LC) (pos : Nat) (ins : LC) : LC :=
  txt.take pos ++ ins ++ txt.drop pos

/-- `wrapAnonymousAmd`: insert `'<name>', ` before the first argument of
the first anonymous `define` call the walker reaches; return the text
unchanged when the source is unparseable or no such call exists. -/
def wrapAnonymousAmd (name : LC) (src : JsSource) : LC :=
  match src.ast with
  | none => src.text
  | some a =>
    match (collectCalls a).find? isAnonDefineNode with
    | some (.call _ args _) =>
      match args.argsHead with
      | some firstArg =>
        insertAt src.text firstArg.startPos ('\x27' :: (name ++ "\x27, ".data))
      | none => src.text
    | _ => src.text

/-- The default-export dispatcher of the module wrapper: text resources,
then legacy (non-AMD) scripts, then anonymous AMD, otherwise the already
well-formed named definition is passed through. -/
def moduleWrapper (name : LC) (src : JsSource) (path : LC) : LC :=
  if isText name path then wrapText name src.text
  else if isNonAmd src then wrapNonAmd name src.text
  else if isAnonymousAmd src then wrapAnonymousAmd name src
  else src.text

/-! ## Version-map resolver (`lib/bundle/moduleMapResolver.js`, resolver unit) -/

/-- `getPropertyKey`: non-computed `Property` nodes keyed by an identifier
or a string literal. -/
def getPropertyKey : Jx → Option LC
  | .propNode false (.ident n _) _ => some n
  | .propNode false (.strLit s _) _ => some s
  | _ => none

/-- The value of a `Property` node. -/
def propValue : Jx → Jx
  | .propNode _ _ v => v
  | _ => .jnil

/-- First property of an encoded property list whose key is `name`. -/
def jxFindProp (name : LC) : Jx → Option Jx
  | .jcons p rest =>
    if getPropertyKey p = some name then some p else jxFindProp name rest
  | _ => none

/-- `findObjectProperty`: search an `ObjectExpression` node. -/
def findObjectProperty (obj : Jx) (name : LC) : Option Jx :=
  match obj with
  | .objE props _ => jxFindProp name props
  | _ => none

/-- Accumulate the string-literal-valued properties of an encoded property
list into a plain object (later duplicates overwrite in place). -/
def collectStringProps (acc : List (LC × LC)) : Jx → List (LC × LC)
  | .jcons p rest =>
    match getPropertyKey p, propValue p with
    | some k, .strLit v _ => collectStringProps (jsObjSet acc k v) rest
    | _, _ => collectStringProps acc rest
  | _ => acc

/-- `objectExpressionToStringMap`: only string-literal values are kept. -/
def objectExpressionToStringMap (obj : Jx) : List (LC × LC) :=
  match obj with
  | .objE props _ => collectStringProps [] props
  | _ => []

/-- Whether a call node is `require.config(...)` or `requirejs.config(...)`
(non-computed member callee with identifier object and property). -/
def isRequireConfigCall : Jx → Bool
  | .call (.member (.ident obj _) (.ident prop _) false _) _ _ =>
    (obj = "require".data || obj = "requirejs".data) && prop = "config".data
  | _ => false

/-- One walker step of `extractBaseUrlInterceptor`: a `require.config` call
whose first argument is an object literal with a `config.baseUrlInterceptor`
property locks in that property's string map. -/
def tryExtractFromCall (c : Jx) : Option (List (LC × LC)) :=
  if isRequireConfigCall c then
    match c with
    | .call _ args _ =>
      match args.argsHead with
      | some cfgArg =>
        match cfgArg with
        | .objE _ _ =>
          match findObjectProperty cfgArg "config".data with
          | some cfgProp =>
            match findObjectProperty (propValue cfgProp) "baseUrlInterceptor".data with
            | some urlProp => some (objectExpressionToStringMap (propValue urlProp))
            | none => none
          | none => none
        | _ => none
      | none => none
    | _ => none
  else none

/-- `extractBaseUrlInterceptor`: a failed parse yields the empty map;
otherwise the first fully matching `require.config` call the walker reaches
provides the map. -/
def extractBaseUrlInterceptor (ast : Option Jx) : List (LC × LC) :=
  match ast with
  | none => []
  | some a => ((collectCalls a).findSome? tryExtractFromCall).getD []

/-- `defaultModulePath`. -/
def defaultModulePath (themePath modulePath : LC) : LC :=
  pathJoin themePath modulePath

/-- `mappedModulePath`: a missing (or falsy, i.e. empty) entry falls back
to the default join; otherwise the entry's value is a path-prefix inserted
between the theme root and the logical path.  Node's variadic
`path.join(a, b, c)` equals the left-nested binary joins for these
segments. -/
def mappedModulePath (themePath modulePath : LC) (map : List (LC × LC)) : LC :=
  if truthy (assocLookup map modulePath) = false then
    defaultModulePath themePath modulePath
  else
    pathJoin (pathJoin themePath ((assocLookup map modulePath).getD [])) modulePath

/-! ## Filesystem model -/

/-- A file on disk: a readable source text (with its parse), or one of the
compressed artifacts produced from a written bundle. -/
inductive FileVal where
  | src (s : JsSource)
  | gzData (content : LC)
  | brData (content : LC)
deriving DecidableEq

/-- Filesystem state: a path-to-file association list. -/
abbrev Fs := List (LC × FileVal)

/-- `fs.access`: does the path exist. -/
def fsExists (fs : Fs) (p : LC) : Bool :=
  (fs.find? (fun e => e.1 = p)).isSome

/-- `fs.readFile` of a source file. -/
def fsRead (fs : Fs) (p : LC) : Option JsSource :=
  match (fs.find? (fun e => e.1 = p)).map Prod.snd with
  | some (.src s) => some s
  | _ => none

/-- The text stored at a path, when it is a source file. -/
def fileTextAt (fs : Fs) (p : LC) : Option LC :=
  match (fs.find? (fun e => e.1 = p)).map Prod.snd with
  | some (.src s) => some s.text
  | _ => none

/-- The name of the optional requirejs map manifest
(`requirejs-map.js` / `requirejs-map.min.js`). -/
def mapFileName (themePath : LC) (isMinified : Bool) : LC :=
  pathJoin themePath
    ("requirejs-map.".data ++ (if isMinified then "min.".data else []) ++ "js".data)

/-- `createPathResolver` (default export of the resolver unit): when the
manifest exists and is readable, resolve through the extracted map;
otherwise fall back to the default join.  A parse failure surfaces as an
empty extracted map, which also yields the default join pointwise. -/
def createPathResolver (fs : Fs) (themePath : LC) (isMinified : Bool) : LC → LC :=
  match fsRead fs (mapFileName themePath isMinified) with
  | some src =>
    fun modulePath =>
      mappedModulePath themePath modulePath (extractBaseUrlInterceptor src.ast)
  | none => fun modulePath => defaultModulePath themePath modulePath

/-! ## Bundle processor (`lib/bundle/processor.js`) -/

/-- `path.resolve(rootDir, p)` for the paths the processor feeds it:
an absolute `p` wins, a relative `p` is joined onto the root. -/
def pathResolve (rootDir p : LC) : LC :=
  if p.head? = some '/' then p else pathJoin rootDir p

/-- Case-insensitive test of the static-resource extensions
(`/\.(html|json|css|txt|svg)$/i`). -/
def hasStaticExt (p : LC) : Bool :=
  ".html".data.isSuffixOf (p.map Char.toLower)
  || ".json".data.isSuffixOf (p.map Char.toLower)
  || ".css".data.isSuffixOf (p.map Char.toLower)
  || ".txt".data.isSuffixOf (p.map Char.toLower)
  || ".svg".data.isSuffixOf (p.map Char.toLower)

/-- Strip the suffix matched by `/\.(min\.)?js$/`. -/
def stripMinJsSuffix (p : LC) : LC :=
  if ".min.js".data.isSuffixOf p then p.take (p.length - 7)
  else if ".js".data.isSuffixOf p then p.take (p.length - 3)
  else p

/-- `resolveFile` (processor.js): static resources are taken literally;
script modules try the variant matching the minification state first and
fall back to the other variant; `none` models the rejection that the
caller's catch turns into a skip. -/
def resolveFile (fs : Fs) (rootDir moduleName modulePath : LC) (isMinifyOn : Bool) :
    Option LC :=
  let fullPath := pathResolve rootDir modulePath
  if "text!".data.isPrefixOf moduleName || hasStaticExt fullPath then
    if fsExists fs fullPath then some fullPath else none
  else
    let basePath := stripMinJsSuffix fullPath
    let minifiedPath := basePath ++ ".min.js".data
    let standardPath := basePath ++ ".js".data
    let primary := if isMinifyOn then minifiedPath else standardPath
    let fallback := if isMinifyOn then standardPath else minifiedPath
    if fsExists fs primary then some primary
    else if fsExists fs fallback then some fallback
    else none

/-- The output directory of a locale (`path.join(localePath, 'magepack')`). -/
def destDirOf (localePath : LC) : LC := pathJoin localePath "magepack".data

/-- The output file of a bundle
(`bundle-<name>.js` / `bundle-<name>.min.js`). -/
def destPathOf (localePath : LC) (bundle : JBundle) (isMinifyOn : Bool) : LC :=
  pathJoin (destDirOf localePath)
    ("bundle-".data ++ bundle.name ++ (if isMinifyOn then ".min.js".data else ".js".data))

/-- `Object.keys(bundle.modules)` in the processor. -/
def moduleNamesOf (bundle : JBundle) : List LC := bundle.modules.map Prod.fst

/-- The physical path a module resolves to: declared path, through the
version-map resolver, through `resolveFile`. -/
def resolvedPathOf (fs : Fs) (localePath : LC) (isMinifyOn : Bool)
    (bundle : JBundle) (name : LC) : Option LC :=
  match assocLookup bundle.modules name with
  | none => none
  | some raw =>
    resolveFile fs localePath name (createPathResolver fs localePath isMinifyOn raw)
      isMinifyOn

/-- The contribution of one module to the `sources` object: the key is the
path relative to the output directory, the value the wrapped content.
`none` models any rejection inside the per-module task (unresolvable file,
unreadable file), which the catch turns into a skip. -/
def moduleOutcome (fs : Fs) (localePath : LC) (isMinifyOn : Bool)
    (bundle : JBundle) (name : LC) : Option (LC × LC) :=
  match resolvedPathOf fs localePath isMinifyOn bundle name with
  | none => none
  | some absPath =>
    match fsRead fs absPath with
    | none => none
    | some src =>
      some (pathRelative (destDirOf localePath) absPath, moduleWrapper name src absPath)

/-- The `sources` object after all concurrent tasks finish, given the
order `sched` in which the tasks completed (each task assigns its entry at
completion time, so object insertion order is completion order). -/
def bundleSources (fs : Fs) (localePath : LC) (isMinifyOn : Bool)
    (bundle : JBundle) (sched : List LC) : List (LC × LC) :=
  sched.foldl
    (fun acc n =>
      match moduleOutcome fs localePath isMinifyOn bundle n with
      | none => acc
      | some (k, w) => jsObjSet acc k w)
    []

/-- `successCount` after all tasks finish. -/
def successCount (fs : Fs) (localePath : LC) (isMinifyOn : Bool)
    (bundle : JBundle) (sched : List LC) : Nat :=
  (sched.filter (fun n => (moduleOutcome fs localePath isMinifyOn bundle n).isSome)).length

/-- Whether `processBundle` writes the bundle file (it returns early
exactly when `successCount === 0`). -/
def bundleWritten (fs : Fs) (localePath : LC) (isMinifyOn : Bool)
    (bundle : JBundle) (sched : List LC) : Bool :=
  decide (0 < successCount fs localePath isMinifyOn bundle sched)

/-- The CLI options the processor receives. -/
structure JOptions where
  minify : Bool
  minifyStrategy : Option LC
  sourcemap : Bool
deriving DecidableEq

/-- `SENSITIVE_PATTERNS` (empty in the source). -/
def sensitivePatterns : List (LC → Bool) := []

/-- Whether any module name matches a sensitive pattern. -/
def hasSensitive (names : List LC) : Bool :=
  names.any (fun n => sensitivePatterns.any (fun p => p n))

/-- The strategy actually used (`'safe'` is forced for sensitive bundles). -/
def effectiveStrategy (opts : JOptions) (names : List LC) : LC :=
  if hasSensitive names then "safe".data
  else opts.minifyStrategy.getD "safe".data

/-- Whether content minification happens. -/
def shouldMinify (opts : JOptions) (names : List LC) : Bool :=
  opts.minify || effectiveStrategy opts names = "aggressive".data

/-- Model of the external terser pass: it consumes the ordered `sources`
object and emits code covering its values in object order.  The claims only
ever run the processor with minification and source maps off, so the
emitted text is modelled as the same concatenation the non-minified branch
produces. -/
def terserOutput (sources : List (LC × LC)) : LC :=
  joinWith '\n' (sources.map Prod.snd)

/-- `finalContent`: terser branch when minifying or emitting source maps,
otherwise `Object.values(sources).join('\n')`. -/
def finalContentOf (opts : JOptions) (names : List LC)
    (sources : List (LC × LC)) : LC :=
  if shouldMinify opts names || opts.sourcemap then terserOutput sources
  else joinWith '\n' (sources.map Prod.snd)

/-! ## Deployment flow (`lib/bundle.js`, `processLocale`) as a trace of
filesystem operations -/

/-- A filesystem mutation.  The constructor `renameOp` exists so that the
absence of any rename in the deployment trace is expressible; the source
never performs one. -/
inductive FsOp where
  | mkdirOp (dir : LC)
  | writeOp (path : LC) (v : FileVal)
  | renameOp (src dst : LC)
deriving DecidableEq

/-- Whether an operation is a rename. -/
def FsOp.isRename : FsOp → Bool
  | .renameOp _ _ => true
  | _ => false

/-- Apply one operation to the filesystem.  Directory creation does not
change file contents; a write creates or overwrites. -/
def applyOp (fs : Fs) : FsOp → Fs
  | .mkdirOp _ => fs
  | .writeOp p v => jsObjSet fs p v
  | .renameOp a b =>
    match (fs.find? (fun e => e.1 = a)).map Prod.snd with
    | some v => jsObjSet (fs.filter (fun e => decide (e.1 ≠ a))) b v
    | none => fs

/-- Apply a trace of operations; the states reachable during a run are the
results of applying its prefixes. -/
def applyOps (fs : Fs) (ops : List FsOp) : Fs := ops.foldl applyOp fs

/-- The operations `processBundle` performs against the live tree: nothing
when no module succeeded, otherwise the directory creation, the bundle
write, and the two compressed-artifact writes — all directly into the
live `magepack` directory. -/
def processBundleOps (fs : Fs) (localePath : LC) (opts : JOptions) (isMinifyOn : Bool)
    (bundle : JBundle) (sched : List LC) : List FsOp :=
  let sources := bundleSources fs localePath isMinifyOn bundle sched
  if successCount fs localePath isMinifyOn bundle sched = 0 then []
  else
    let fc := finalContentOf opts (moduleNamesOf bundle) sources
    let dest := destPathOf localePath bundle isMinifyOn
    [.mkdirOp (destDirOf localePath),
     .writeOp dest (.src ⟨fc, none⟩),
     .writeOp (dest ++ ".gz".data) (.gzData fc),
     .writeOp (dest ++ ".br".data) (.brData fc)]

/-- Minimal JSON string escaping for `JSON.stringify` of the identifiers
this code emits. -/
def jsonEscape : LC → LC
  | [] => []
  | c :: rest =>
    if c = '\\' then '\\' :: '\\' :: jsonEscape rest
    else if c = '"' then '\\' :: '"' :: jsonEscape rest
    else if c = '\n' then '\\' :: 'n' :: jsonEscape rest
    else c :: jsonEscape rest

/-- A JSON string literal. -/
def jsonStr (s : LC) : LC := '"' :: (jsonEscape s ++ ['"'])

/-- `JSON.stringify` of an object mapping strings to string arrays. -/
def jsonOfArrMap (m : List (LC × List LC)) : LC :=
  '\x7b' ::
    (joinWith ','
      (m.map (fun p =>
        jsonStr p.1 ++ ':' :: ('[' :: (joinWith ',' (p.2.map jsonStr) ++ [']'])))) ++
      ['\x7d'])

/-- `JSON.stringify` of an object mapping strings to strings. -/
def jsonOfStrMap (m : List (LC × LC)) : LC :=
  '\x7b' ::
    (joinWith ',' (m.map (fun p => jsonStr p.1 ++ ':' :: jsonStr p.2)) ++ ['\x7d'])

/-- `buildRequireConfigContent` (lib/bundle.js): the loader fragment wiring
each logical bundle id to its member list and its physical
(possibly `.min`) path. -/
def buildRequireConfigContent (config : List JBundle) (isMinifyOn : Bool) : LC :=
  let ext := if isMinifyOn then ".min".data else []
  let kept := config.filter (fun b => decide (b.name ≠ []))
  let ids := kept.map (fun b => "magepack/bundle-".data ++ b.name)
  let bundles := kept.zip ids |>.map (fun p =>
    (p.2, (keysOf p.1).map stripJsExt))
  let paths := ids.map (fun i => (i, i ++ ext))
  "require.config(\x7b\n    deps: [],\n    bundles: ".data ++ jsonOfArrMap bundles
    ++ ",\n    paths: ".data ++ jsonOfStrMap paths ++ "\n\x7d);".data

/-- The operation `injectConfigIntoMain` performs: rewrite the live
requirejs config file in place when it exists, do nothing when it does not
(`ENOENT` is swallowed). -/
def injectOps (fs : Fs) (localePath : LC) (isMinifyOn : Bool) (frag : LC) : List FsOp :=
  let p := pathJoin localePath
    ("requirejs-config".data ++ (if isMinifyOn then ".min.js".data else ".js".data))
  match fsRead fs p with
  | some src => [.writeOp p (.src ⟨injectConfigIntoMain src.text frag, none⟩)]
  | none => []

/-- The trace of `processLocale` over one locale for one schedule of the
concurrent bundle tasks: every bundle's operations against the live tree
(here in bundle order, one of the reachable interleavings of the
`Promise.all` fan-out; module reads touch only paths outside the output
directory), followed by the config injection. -/
def processLocaleOps (fs : Fs) (localePath : LC) (opts : JOptions) (isMinifyOn : Bool)
    (config : List JBundle) : List FsOp :=
  (config.flatMap (fun b =>
      processBundleOps fs localePath opts isMinifyOn b (moduleNamesOf b)))
    ++ injectOps fs localePath isMinifyOn (buildRequireConfigContent config isMinifyOn)

/-! ## Lemmas about the config injection -/

lemma stripInjectedFuel_nil (f : Nat) : stripInjectedFuel f [] = [] := by
  have h : firstOccur startMarker ([] : LC) = none := by decide
  cases f <;> simp [stripInjectedFuel, h]

lemma stripInjected_appended (P F : LC)
    (h1 : firstOccur startMarker (P ++ ';' :: '\n' :: injectionBlock F) =
      some (P.length + 3))
    (h2 : firstOccur endMarker ('\n' :: (F ++ '\n' :: endMarker)) =
      some (F.length + 2)) :
    stripInjected (P ++ ';' :: '\n' :: injectionBlock F) = P ++ [';', '\n'] := by
  set W := P ++ ';' :: '\n' :: injectionBlock F with hW
  have hWeq : W = (P ++ [';', '\n', '\n'] ++ startMarker) ++
      ('\n' :: (F ++ '\n' :: endMarker)) := by
    simp [hW, injectionBlock]
  have hWeq2 : W = (P ++ [';', '\n']) ++
      '\n' :: (startMarker ++ '\n' :: (F ++ '\n' :: endMarker)) := by
    simp [hW, injectionBlock]
  have hlen1 : (P ++ [';', '\n', '\n'] ++ startMarker).length =
      P.length + 3 + startMarker.length := by
    simp [List.length_append]; omega
  have hdrop : W.drop (P.length + 3 + startMarker.length) =
      '\n' :: (F ++ '\n' :: endMarker) := by
    rw [hWeq]; exact List.drop_left' hlen1
  have hlen2 : (P ++ [';', '\n']).length = P.length + 3 - 1 := by
    simp [List.length_append]
  have hget : W.get? (P.length + 3 - 1) = some '\n' := by
    rw [hWeq2, List.get?_append_right (by omega : (P ++ [';', '\n']).length ≤ P.length + 3 - 1)]
    simp [List.length_append]
  have htake : W.take (P.length + 3 - 1) = P ++ [';', '\n'] := by
    rw [hWeq2]; exact List.take_left' hlen2
  have hlenW : W.length =
      P.length + 3 + startMarker.length + (F.length + 2) + endMarker.length := by
    rw [hWeq]; simp [List.length_append]; omega
  have hdropAll :
      W.drop (P.length + 3 + startMarker.length + (F.length + 2) + endMarker.length) =
        [] := by
    apply List.drop_eq_nil_of_le; omega
  obtain ⟨n, hn⟩ : ∃ n, W.length = n + 1 := ⟨W.length - 1, by omega⟩
  rw [stripInjected, hn]
  simp only [stripInjectedFuel]
  rw [h1]
  simp only []
  rw [hdrop, h2]
  simp only []
  rw [if_pos ⟨by omega, hget⟩, htake, hdropAll, stripInjectedFuel_nil, List.append_nil]

lemma dropWhile_head_false (p : Char → Bool) (l : LC) (c : Char) (t : LC)
    (h : l.dropWhile p = c :: t) : p c = false := by
  induction l with
  | nil => simp [List.dropWhile] at h
  | cons a l ih =>
    by_cases hp : p a
    · rw [List.dropWhile_cons_of_pos hp] at h; exact ih h
    · rw [List.dropWhile_cons_of_neg hp] at h
      cases h
      simpa using hp

lemma trimR_append_semi_nl (P : LC) : trimR (P ++ [';', '\n']) = P ++ [';'] := by
  unfold trimR
  rw [List.reverse_append]
  have h2 : ([';', '\n'] : LC).reverse = ['\n', ';'] := by decide
  rw [h2]
  simp [List.dropWhile, isJsWs]

lemma trimL_append_semi (P : LC) (hP : ∃ x, P = trimL x) :
    trimL (P ++ [';']) = P ++ [';'] := by
  obtain ⟨x, hx⟩ := hP
  cases hp : P with
  | nil =>
    show List.dropWhile isJsWs [';'] = [';']
    decide
  | cons c t =>
    have hc : isJsWs c = false :=
      dropWhile_head_false isJsWs x c t (hx.symm.trans hp)
    simp [trimL, List.dropWhile, hc]

lemma jsTrim_append_semi_nl (x : LC) :
    jsTrim (jsTrim x ++ [';', '\n']) = jsTrim x ++ [';'] := by
  unfold jsTrim
  rw [trimR_append_semi_nl]
  exact trimL_append_semi _ ⟨trimR x, rfl⟩

/-! ## Claim C2 — config injection is not byte-idempotent -/

/-- C2 (counterexample): injecting the same fragment twice into
`"var x = 1;"` does not reproduce the once-injected file — the second run
strips the previous fragment but unconditionally appends another `;`
before re-injecting. -/
theorem injectConfigIntoMain_twice_ne_once :
    injectConfigIntoMain (injectConfigIntoMain "var x = 1;".data "X".data) "X".data ≠
      injectConfigIntoMain "var x = 1;".data "X".data := by
  decide

/-- C2 (amended): for any initial content whose stripped residue contains
no dangling start marker and any fragment free of the marker strings
(both expressed through the two first-occurrence hypotheses), a second
injection strips exactly the previously injected block and re-appends it,
with exactly one extra `;` inserted before the newline that precedes the
block; in particular the result is never byte-identical to a single
injection. -/
theorem injectConfigIntoMain_twice (c F : LC)
    (h1 : firstOccur startMarker (injectConfigIntoMain c F) =
      some ((jsTrim (stripInjected c)).length + 3))
    (h2 : firstOccur endMarker ('\n' :: (F ++ '\n' :: endMarker)) =
      some (F.length + 2)) :
    injectConfigIntoMain (injectConfigIntoMain c F) F =
      jsTrim (stripInjected c) ++ ';' :: ';' :: '\n' :: injectionBlock F
    ∧ injectConfigIntoMain (injectConfigIntoMain c F) F ≠
        injectConfigIntoMain c F := by
  have hstrip : stripInjected (injectConfigIntoMain c F) =
      jsTrim (stripInjected c) ++ [';', '\n'] :=
    stripInjected_appended (jsTrim (stripInjected c)) F h1 h2
  have hmain : injectConfigIntoMain (injectConfigIntoMain c F) F =
      jsTrim (stripInjected c) ++ ';' :: ';' :: '\n' :: injectionBlock F := by
    show jsTrim (stripInjected (injectConfigIntoMain c F)) ++
        ';' :: '\n' :: injectionBlock F = _
    rw [hstrip, jsTrim_append_semi_nl]
    simp
  refine ⟨hmain, ?_⟩
  intro heq
  rw [hmain] at heq
  have hlen := congrArg List.length heq
  simp [injectConfigIntoMain, List.length_append] at hlen

/-- C2 (witness for the amended theorem): the hypotheses hold, and the
theorem applies, at the concrete content `"var a = 1"` and fragment
`"CFG"`. -/
theorem injectConfigIntoMain_twice_witness :
    injectConfigIntoMain (injectConfigIntoMain "var a = 1".data "CFG".data) "CFG".data =
      jsTrim (stripInjected "var a = 1".data) ++
        ';' :: ';' :: '\n' :: injectionBlock "CFG".data :=
  (injectConfigIntoMain_twice "var a = 1".data "CFG".data (by decide) (by decide)).1

/-! ## Lemmas about the classifier -/

/-- The vendor-map entry a module contributes, if any. -/
def vendorEntry (bundles : List JBundle) (m : LC) : Option (LC × LC) :=
  match promoteDecision bundles m with
  | some (p, .vendor) => some (m, p)
  | _ => none

/-- The common-map entry a module contributes, if any. -/
def commonEntry (bundles : List JBundle) (m : LC) : Option (LC × LC) :=
  match promoteDecision bundles m with
  | some (p, .common) => some (m, p)
  | _ => none

lemma classifyStep_foldl (bundles : List JBundle) :
    ∀ (l : List LC) (acc : List (LC × LC) × List (LC × LC)),
      l.foldl (classifyStep bundles) acc =
        (acc.1 ++ l.filterMap (vendorEntry bundles),
         acc.2 ++ l.filterMap (commonEntry bundles)) := by
  intro l
  induction l with
  | nil => intro acc; simp
  | cons m rest ih =>
    intro acc
    simp only [List.foldl_cons, List.filterMap_cons]
    cases hd : promoteDecision bundles m with
    | none =>
      simp [classifyStep, vendorEntry, commonEntry, hd, ih]
    | some pt =>
      obtain ⟨p, t⟩ := pt
      cases t
      · simp [classifyStep, vendorEntry, commonEntry, hd, ih]
      · simp [classifyStep, vendorEntry, commonEntry, hd, ih]

lemma classifyModules_eq (bundles : List JBundle) :
    classifyModules bundles =
      ((globalOrder bundles).filterMap (vendorEntry bundles),
       (globalOrder bundles).filterMap (commonEntry bundles)) := by
  unfold classifyModules
  rw [classifyStep_foldl]
  simp

lemma vendorEntry_some (bundles : List JBundle) (m : LC) (y : LC × LC)
    (h : vendorEntry bundles m = some y) :
    y.1 = m ∧ promoteDecision bundles m = some (y.2, .vendor) := by
  unfold vendorEntry at h
  cases hd : promoteDecision bundles m with
  | none => rw [hd] at h; simp at h
  | some pt =>
    obtain ⟨p, t⟩ := pt
    rw [hd] at h
    cases t
    · simp at h; simp [← h]
    · simp at h

lemma commonEntry_some (bundles : List JBundle) (m : LC) (y : LC × LC)
    (h : commonEntry bundles m = some y) :
    y.1 = m ∧ promoteDecision bundles m = some (y.2, .common) := by
  unfold commonEntry at h
  cases hd : promoteDecision bundles m with
  | none => rw [hd] at h; simp at h
  | some pt =>
    obtain ⟨p, t⟩ := pt
    rw [hd] at h
    cases t
    · simp at h
    · simp at h; simp [← h]

lemma mem_keys_filterMap_vendor (bundles : List JBundle) (l : List LC) (m : LC) :
    m ∈ (l.filterMap (vendorEntry bundles)).map Prod.fst ↔
      m ∈ l ∧ ∃ p, promoteDecision bundles m = some (p, .vendor) := by
  simp only [List.mem_map, List.mem_filterMap]
  constructor
  · rintro ⟨y, ⟨x, hx, hy⟩, rfl⟩
    obtain ⟨h1, h2⟩ := vendorEntry_some bundles x y hy
    rw [h1]
    exact ⟨hx, y.2, h2⟩
  · rintro ⟨hm, p, hp⟩
    exact ⟨(m, p), ⟨m, hm, by simp [vendorEntry, hp]⟩, rfl⟩

lemma mem_keys_filterMap_common (bundles : List JBundle) (l : List LC) (m : LC) :
    m ∈ (l.filterMap (commonEntry bundles)).map Prod.fst ↔
      m ∈ l ∧ ∃ p, promoteDecision bundles m = some (p, .common) := by
  simp only [List.mem_map, List.mem_filterMap]
  constructor
  · rintro ⟨y, ⟨x, hx, hy⟩, rfl⟩
    obtain ⟨h1, h2⟩ := commonEntry_some bundles x y hy
    rw [h1]
    exact ⟨hx, y.2, h2⟩
  · rintro ⟨hm, p, hp⟩
    exact ⟨(m, p), ⟨m, hm, by simp [commonEntry, hp]⟩, rfl⟩

lemma mem_firstSeenAux (m : LC) :
    ∀ (l seen : List LC), m ∈ firstSeenAux seen l ↔ m ∈ l ∧ m ∉ seen := by
  intro l
  induction l with
  | nil => intro seen; simp [firstSeenAux]
  | cons a rest ih =>
    intro seen
    simp only [firstSeenAux]
    by_cases ha : a ∈ seen
    · rw [if_pos ha, ih seen, List.mem_cons]
      constructor
      · rintro ⟨h1, h2⟩; exact ⟨Or.inr h1, h2⟩
      · rintro ⟨h1 | h1, h2⟩
        · subst h1; exact absurd ha h2
        · exact ⟨h1, h2⟩
    · rw [if_neg ha, List.mem_cons, List.mem_cons, ih (a :: seen)]
      constructor
      · rintro (rfl | ⟨h1, h2⟩)
        · exact ⟨Or.inl rfl, ha⟩
        · rw [List.mem_cons] at h2
          push_neg at h2
          exact ⟨Or.inr h1, h2.2⟩
      · rintro ⟨rfl | h1, h2⟩
        · exact Or.inl rfl
        · by_cases hma : m = a
          · exact Or.inl hma
          · refine Or.inr ⟨h1, ?_⟩
            rw [List.mem_cons]
            push_neg
            exact ⟨hma, h2⟩

lemma mem_globalOrder (bundles : List JBundle) (m : LC) :
    m ∈ globalOrder bundles ↔ ∃ b ∈ bundles, m ∈ keysOf b := by
  unfold globalOrder
  rw [mem_firstSeenAux]
  simp [List.mem_flatMap]

lemma mem_keys_cleanBundle (K : List LC) (b : JBundle) (m : LC) :
    m ∈ keysOf (cleanBundle K b) ↔ m ∈ keysOf b ∧ m ∉ K := by
  unfold keysOf cleanBundle
  simp only [List.mem_map, List.mem_filter]
  constructor
  · rintro ⟨⟨k, v⟩, ⟨hmem, hdec⟩, rfl⟩
    exact ⟨⟨(k, v), hmem, rfl⟩, by simpa using hdec⟩
  · rintro ⟨⟨⟨k, v⟩, hmem, rfl⟩, hnot⟩
    exact ⟨(k, v), ⟨hmem, by simpa using hnot⟩, rfl⟩

lemma assocLookup_some_mem {α : Type} (l : List (LC × α)) (m : LC) (v : α)
    (h : assocLookup l m = some v) : (m, v) ∈ l := by
  unfold assocLookup at h
  cases hf : l.find? (fun p => p.1 = m) with
  | none => rw [hf] at h; simp at h
  | some pr =>
    rw [hf] at h
    have hmem := List.mem_of_find?_eq_some hf
    have hpred := List.find?_some hf
    obtain ⟨k, v2⟩ := pr
    simp at h hpred
    subst h
    subst hpred
    exact hmem

lemma assocLookup_isSome_of_mem_keys {α : Type} (l : List (LC × α)) (m : LC)
    (h : m ∈ l.map Prod.fst) : (assocLookup l m).isSome := by
  obtain ⟨⟨k, v⟩, hmem, rfl⟩ := List.mem_map.mp h
  unfold assocLookup
  have hfind : (l.find? (fun p => p.1 = (k, v).1)).isSome :=
    List.find?_isSome.mpr ⟨(k, v), hmem, by simp⟩
  obtain ⟨pr, hpr⟩ := Option.isSome_iff_exists.mp hfind
  rw [hpr]
  rfl

lemma mem_keys_of_assocLookup_some {α : Type} (l : List (LC × α)) (m : LC) (v : α)
    (h : assocLookup l m = some v) : m ∈ l.map Prod.fst := by
  have := assocLookup_some_mem l m v h
  exact List.mem_map.mpr ⟨(m, v), this, rfl⟩

lemma count_eq_one_of_nodup_mem (l : List LC) (m : LC) (hnd : l.Nodup)
    (hm : m ∈ l) : l.count m = 1 := by
  induction l with
  | nil => simp at hm
  | cons a t ih =>
    have hnd' := List.nodup_cons.mp hnd
    rw [List.count_cons]
    rcases List.mem_cons.mp hm with rfl | hmt
    · have h0 : t.count m = 0 := List.count_eq_zero.mpr hnd'.1
      simp [h0]
    · have hne : m ≠ a := by rintro rfl; exact hnd'.1 hmt
      rw [ih hnd'.2 hmt]
      simp [hne]
      exact fun h => hne h.symm

lemma usageCount_eq_countP (bundles : List JBundle) (m : LC)
    (hnd : ∀ b ∈ bundles, (keysOf b).Nodup) :
    usageCount bundles m = bundles.countP (fun b => decide (m ∈ keysOf b)) := by
  induction bundles with
  | nil => simp [usageCount]
  | cons b rest ih =>
    have hrest := ih (fun x hx => hnd x (List.mem_cons_of_mem _ hx))
    have hb := hnd b (List.mem_cons_self _ _)
    unfold usageCount at hrest ⊢
    simp only [List.map_cons, List.sum_cons, List.countP_cons]
    rw [hrest]
    by_cases hm : m ∈ keysOf b
    · have hcount : (keysOf b).count m = 1 := count_eq_one_of_nodup_mem _ _ hb hm
      rw [hcount]
      simp [hm]
      omega
    · have hcount : (keysOf b).count m = 0 := List.count_eq_zero.mpr hm
      rw [hcount]
      simp [hm]

lemma usageCount_pos (bundles : List JBundle) (m : LC) (b : JBundle)
    (hb : b ∈ bundles) (hm : m ∈ keysOf b) : 0 < usageCount bundles m := by
  have h1 : (keysOf b).count m ≠ 0 := fun h0 => List.count_eq_zero.mp h0 hm
  have h2 : (keysOf b).count m ∈ bundles.map (fun x => (keysOf x).count m) :=
    List.mem_map.mpr ⟨b, hb, rfl⟩
  have h3 := List.single_le_sum (fun (x : Nat) _ => Nat.zero_le x) _ h2
  unfold usageCount
  omega

lemma promoteDecision_isSome_of_shared (bundles : List JBundle) (m : LC)
    (hshared : minUsageThreshold ≤ usageCount bundles m)
    (hfind : ∃ b ∈ bundles, truthy (assocLookup b.modules m) = true) :
    (promoteDecision bundles m).isSome := by
  obtain ⟨bf, hbf, htr⟩ := hfind
  have hfsome : (bundles.find? (fun b => truthy (assocLookup b.modules m))).isSome :=
    List.find?_isSome.mpr ⟨bf, hbf, htr⟩
  obtain ⟨bb, hbb⟩ := Option.isSome_iff_exists.mp hfsome
  simp only [promoteDecision]
  have hc : (isCriticalInfrastructure (cleanModuleName m)
      || decide (minUsageThreshold ≤ usageCount bundles m)
      || isExplicitlyCommon m) = true := by
    simp [hshared]
  rw [hc]
  simp only [if_true]
  rw [hbb]
  split
  · simp_all
  · split <;> simp

lemma promoteDecision_none_not_shared (bundles : List JBundle) (m : LC)
    (hfind : ∃ b ∈ bundles, truthy (assocLookup b.modules m) = true)
    (hdec : promoteDecision bundles m = none) :
    usageCount bundles m < minUsageThreshold := by
  by_contra hge
  push_neg at hge
  have hsome := promoteDecision_isSome_of_shared bundles m hge hfind
  rw [hdec] at hsome
  simp at hsome

/-! ## Claim C4 — module exclusivity after classification -/

/-- C4 (counterexample): with an empty-string declared path (a falsy
property value in JavaScript), a module shared by two bundles is promoted
by the usage count but dropped by the truthiness test in
`bundles.find(b => b.modules[moduleName])`, so it survives in **two**
page bundles of the output. -/
theorem extractCommonBundle_empty_path_duplicated :
    (extractCommonBundle
        [JBundle.mk "p1".data [("M".data, [])],
         JBundle.mk "p2".data [("M".data, [])]]).countP
      (fun b => decide ("M".data ∈ keysOf b)) = 2 := by
  decide

/-- C4 (amended): for bundle definitions with duplicate-free module maps
whose declared paths are all non-empty, every module name occurring in the
input occurs in exactly one bundle of the classifier's output. -/
theorem extractCommonBundle_exclusive (bundles : List JBundle)
    (hnd : ∀ b ∈ bundles, (keysOf b).Nodup)
    (hpaths : ∀ b ∈ bundles, ∀ p ∈ b.modules, p.2 ≠ ([] : LC))
    (m : LC) (hm : ∃ b ∈ bundles, m ∈ keysOf b) :
    (extractCommonBundle bundles).countP (fun b => decide (m ∈ keysOf b)) = 1 := by
  obtain ⟨b0, hb0, hmb0⟩ := hm
  have hGlobal : m ∈ globalOrder bundles :=
    (mem_globalOrder bundles m).mpr ⟨b0, hb0, hmb0⟩
  have hfind : ∃ b ∈ bundles, truthy (assocLookup b.modules m) = true := by
    obtain ⟨v, hv⟩ :=
      Option.isSome_iff_exists.mp (assocLookup_isSome_of_mem_keys b0.modules m hmb0)
    have hvne := hpaths b0 hb0 (m, v) (assocLookup_some_mem _ _ _ hv)
    exact ⟨b0, hb0, by simp [truthy, hv, hvne]⟩
  have hCM := classifyModules_eq bundles
  simp only [extractCommonBundle]
  rw [hCM]
  simp only [List.countP_cons, List.countP_map]
  have hkeysV : keysOf (JBundle.mk "vendor".data
      ((globalOrder bundles).filterMap (vendorEntry bundles))) =
      ((globalOrder bundles).filterMap (vendorEntry bundles)).map Prod.fst := rfl
  have hkeysC : keysOf (JBundle.mk "common".data
      ((globalOrder bundles).filterMap (commonEntry bundles))) =
      ((globalOrder bundles).filterMap (commonEntry bundles)).map Prod.fst := rfl
  cases hdec : promoteDecision bundles m with
  | some pt =>
    obtain ⟨p, t⟩ := pt
    have hmK : m ∈ ((globalOrder bundles).filterMap (vendorEntry bundles)).map Prod.fst ++
        ((globalOrder bundles).filterMap (commonEntry bundles)).map Prod.fst := by
      cases t
      · exact List.mem_append.mpr
          (Or.inl ((mem_keys_filterMap_vendor bundles _ m).mpr ⟨hGlobal, p, hdec⟩))
      · exact List.mem_append.mpr
          (Or.inr ((mem_keys_filterMap_common bundles _ m).mpr ⟨hGlobal, p, hdec⟩))
    have hclean : bundles.countP
        ((fun b => decide (m ∈ keysOf b)) ∘
          cleanBundle
            (((globalOrder bundles).filterMap (vendorEntry bundles)).map Prod.fst ++
              ((globalOrder bundles).filterMap (commonEntry bundles)).map Prod.fst)) = 0 := by
      rw [List.countP_eq_zero]
      intro b hb
      simp only [Function.comp_apply, decide_eq_true_eq, mem_keys_cleanBundle]
      rintro ⟨-, habs⟩
      exact habs hmK
    rw [hclean]
    cases t with
    | vendor =>
      have h1 : decide (m ∈ keysOf (JBundle.mk "vendor".data
          ((globalOrder bundles).filterMap (vendorEntry bundles)))) = true := by
        rw [hkeysV, decide_eq_true_eq]
        exact (mem_keys_filterMap_vendor bundles _ m).mpr ⟨hGlobal, p, hdec⟩
      have h2 : decide (m ∈ keysOf (JBundle.mk "common".data
          ((globalOrder bundles).filterMap (commonEntry bundles)))) = false := by
        rw [hkeysC, decide_eq_false_iff_not]
        intro habs
        obtain ⟨-, p2, hp2⟩ := (mem_keys_filterMap_common bundles _ m).mp habs
        rw [hdec] at hp2
        cases hp2
      rw [h1, h2]
      simp
    | common =>
      have h1 : decide (m ∈ keysOf (JBundle.mk "vendor".data
          ((globalOrder bundles).filterMap (vendorEntry bundles)))) = false := by
        rw [hkeysV, decide_eq_false_iff_not]
        intro habs
        obtain ⟨-, p2, hp2⟩ := (mem_keys_filterMap_vendor bundles _ m).mp habs
        rw [hdec] at hp2
        cases hp2
      have h2 : decide (m ∈ keysOf (JBundle.mk "common".data
          ((globalOrder bundles).filterMap (commonEntry bundles)))) = true := by
        rw [hkeysC, decide_eq_true_eq]
        exact (mem_keys_filterMap_common bundles _ m).mpr ⟨hGlobal, p, hdec⟩
      rw [h1, h2]
      simp
  | none =>
    have hVfalse : m ∉ ((globalOrder bundles).filterMap (vendorEntry bundles)).map Prod.fst := by
      intro habs
      obtain ⟨-, p, hp⟩ := (mem_keys_filterMap_vendor bundles _ m).mp habs
      rw [hdec] at hp
      cases hp
    have hCfalse : m ∉ ((globalOrder bundles).filterMap (commonEntry bundles)).map Prod.fst := by
      intro habs
      obtain ⟨-, p, hp⟩ := (mem_keys_filterMap_common bundles _ m).mp habs
      rw [hdec] at hp
      cases hp
    have hnotK : m ∉ ((globalOrder bundles).filterMap (vendorEntry bundles)).map Prod.fst ++
        ((globalOrder bundles).filterMap (commonEntry bundles)).map Prod.fst := by
      rw [List.mem_append]
      rintro (h | h)
      · exact hVfalse h
      · exact hCfalse h
    have hlt := promoteDecision_none_not_shared bundles m hfind hdec
    have hpos := usageCount_pos bundles m b0 hb0 hmb0
    have hcnt := usageCount_eq_countP bundles m hnd
    have hclean : bundles.countP
        ((fun b => decide (m ∈ keysOf b)) ∘
          cleanBundle
            (((globalOrder bundles).filterMap (vendorEntry bundles)).map Prod.fst ++
              ((globalOrder bundles).filterMap (commonEntry bundles)).map Prod.fst)) =
        bundles.countP (fun b => decide (m ∈ keysOf b)) := by
      apply List.countP_congr
      intro b hb
      simp only [Function.comp_apply, decide_eq_true_eq, mem_keys_cleanBundle]
      constructor
      · rintro ⟨h1, -⟩; exact h1
      · intro h1; exact ⟨h1, hnotK⟩
    rw [hclean]
    have h1 : decide (m ∈ keysOf (JBundle.mk "vendor".data
        ((globalOrder bundles).filterMap (vendorEntry bundles)))) = false := by
      rw [hkeysV, decide_eq_false_iff_not]; exact hVfalse
    have h2 : decide (m ∈ keysOf (JBundle.mk "common".data
        ((globalOrder bundles).filterMap (commonEntry bundles)))) = false := by
      rw [hkeysC, decide_eq_false_iff_not]; exact hCfalse
    rw [h1, h2]
    simp only [Bool.false_eq_true, if_false]
    unfold minUsageThreshold at hlt
    omega

/-- The scenario bundles of the specification example
(`cms` and `category`, sharing module `A`). -/
def demoBundles : List JBundle :=
  [JBundle.mk "cms".data [("A".data, "a.js".data), ("B".data, "b.js".data)],
   JBundle.mk "category".data [("A".data, "a.js".data), ("C".data, "c.js".data)]]

/-- C4 (witness for the amended theorem): in the two-bundle scenario the
shared module `A` occurs in exactly one output bundle. -/
theorem extractCommonBundle_exclusive_witness :
    (extractCommonBundle demoBundles).countP
      (fun b => decide ("A".data ∈ keysOf b)) = 1 :=
  extractCommonBundle_exclusive demoBundles (by decide) (by decide) "A".data
    (by decide)

/-! ## Claim C5 — the scenario routes the shared module to vendor -/

/-- C5 (counterexample): in the specification's scenario the shared module
`A` does **not** land in `common` — `getTargetBundleType` sends any name
that is neither a template/JSON resource nor a `Vendor_Module/...` name to
`vendor`, and `"A"` fails the Magento-module regex. -/
theorem extractCommonBundle_scenario_a_in_vendor :
    (extractCommonBundle demoBundles).get? 1 = some (JBundle.mk "common".data [])
    ∧ (extractCommonBundle demoBundles).get? 0 =
        some (JBundle.mk "vendor".data [("A".data, "a.js".data)]) := by
  decide

/-- C5 (amended): the classifier output for the scenario input is
`vendor = {A: a.js}`, `common = {}`, `cms = {B: b.js}`,
`category = {C: c.js}` — the shared module is promoted, but into the
vendor bundle. -/
theorem extractCommonBundle_scenario :
    extractCommonBundle demoBundles =
      [JBundle.mk "vendor".data [("A".data, "a.js".data)],
       JBundle.mk "common".data [],
       JBundle.mk "cms".data [("B".data, "b.js".data)],
       JBundle.mk "category".data [("C".data, "c.js".data)]] := by
  decide

/-! ## Claim C6 — no transactional-bundle exception exists -/

/-- The transactional scenario: a module used only by the cart and
checkout bundles. -/
def cartCheckoutBundles : List JBundle :=
  [JBundle.mk "cart".data [("M".data, "m.js".data)],
   JBundle.mk "checkout".data [("M".data, "m.js".data)]]

/-- C6 (counterexample): a module referenced by exactly the `cart` and
`checkout` bundles meets the threshold and is promoted to `vendor` — it
does not stay in its page-specific bundles. -/
theorem extractCommonBundle_cart_checkout_promoted :
    minUsageThreshold ≤ usageCount cartCheckoutBundles "M".data
    ∧ (extractCommonBundle cartCheckoutBundles).get? 2 =
        some (JBundle.mk "cart".data [])
    ∧ (extractCommonBundle cartCheckoutBundles).get? 3 =
        some (JBundle.mk "checkout".data [])
    ∧ (extractCommonBundle cartCheckoutBundles).get? 0 =
        some (JBundle.mk "vendor".data [("M".data, "m.js".data)]) := by
  decide

/-- C6 (amended): promotion depends only on the usage count (and the
critical/manual lists), never on which bundles reference the module: every
module meeting the threshold that is declared with a non-empty path in
some bundle ends up in the synthetic vendor or common bundle and in no
rewritten page bundle — even when all its referencing bundles are
transactional. -/
theorem sharedModule_always_promoted (bundles : List JBundle) (m : LC)
    (hshared : minUsageThreshold ≤ usageCount bundles m)
    (hfind : ∃ b ∈ bundles, truthy (assocLookup b.modules m) = true) :
    (((extractCommonBundle bundles).take 2).any
        (fun b => decide (m ∈ keysOf b)) = true)
    ∧ ∀ b ∈ (extractCommonBundle bundles).drop 2, m ∉ keysOf b := by
  have hsome := promoteDecision_isSome_of_shared bundles m hshared hfind
  obtain ⟨⟨p, t⟩, hdec⟩ := Option.isSome_iff_exists.mp hsome
  have hGlobal : m ∈ globalOrder bundles := by
    obtain ⟨b, hb, htr⟩ := hfind
    rw [mem_globalOrder]
    refine ⟨b, hb, ?_⟩
    cases hv : assocLookup b.modules m with
    | none => rw [hv] at htr; simp [truthy] at htr
    | some v => exact mem_keys_of_assocLookup_some b.modules m v hv
  have hCM := classifyModules_eq bundles
  simp only [extractCommonBundle]
  rw [hCM]
  constructor
  · simp only [List.take, List.any_cons, List.any_nil, Bool.or_false]
    cases t
    · have h1 : decide (m ∈ keysOf (JBundle.mk "vendor".data
          ((globalOrder bundles).filterMap (vendorEntry bundles)))) = true := by
        rw [decide_eq_true_eq]
        exact (mem_keys_filterMap_vendor bundles _ m).mpr ⟨hGlobal, p, hdec⟩
      rw [h1]
      simp
    · have h2 : decide (m ∈ keysOf (JBundle.mk "common".data
          ((globalOrder bundles).filterMap (commonEntry bundles)))) = true := by
        rw [decide_eq_true_eq]
        exact (mem_keys_filterMap_common bundles _ m).mpr ⟨hGlobal, p, hdec⟩
      rw [h2]
      simp
  · intro b hb
    simp only [List.drop] at hb
    obtain ⟨b0, hb0, rfl⟩ := List.mem_map.mp hb
    rw [mem_keys_cleanBundle]
    rintro ⟨-, habs⟩
    apply habs
    rw [List.mem_append]
    cases t
    · exact Or.inl ((mem_keys_filterMap_vendor bundles _ m).mpr ⟨hGlobal, p, hdec⟩)
    · exact Or.inr ((mem_keys_filterMap_common bundles _ m).mpr ⟨hGlobal, p, hdec⟩)

/-- C6 (witness for the amended theorem): applied to the cart/checkout
scenario, the shared module is found in the first two (synthetic) output
bundles. -/
theorem sharedModule_always_promoted_witness :
    ((extractCommonBundle cartCheckoutBundles).take 2).any
      (fun b => decide ("M".data ∈ keysOf b)) = true :=
  (sharedModule_always_promoted cartCheckoutBundles "M".data (by decide)
    (by decide)).1

/-! ## Claim C7 — the version-map resolver never raises and is a prefix
indirection -/

lemma pathJoin_nil_right (a : LC) : pathJoin a [] = a := by
  by_cases h : a = [] <;> simp [pathJoin, h]

/-- C7: the resolver produced by `createPathResolver` is total; when the
manifest file is absent it is the identity join of the target root with
the logical path; when the manifest is present the same holds whenever the
extracted map is empty (which covers a parse failure in both dialects and
the absence of the expected `config.baseUrlInterceptor` shape); and every
string-valued entry of the extracted map acts as a path-prefix indirection:
the result is the target root joined with the entry's value joined with the
original logical path. -/
theorem createPathResolver_spec (fs : Fs) (themePath modulePath : LC)
    (isMinified : Bool) :
    (fsRead fs (mapFileName themePath isMinified) = none →
      createPathResolver fs themePath isMinified modulePath =
        pathJoin themePath modulePath)
    ∧ (∀ src, fsRead fs (mapFileName themePath isMinified) = some src →
        (extractBaseUrlInterceptor src.ast = [] →
          createPathResolver fs themePath isMinified modulePath =
            pathJoin themePath modulePath)
        ∧ (∀ v, assocLookup (extractBaseUrlInterceptor src.ast) modulePath = some v →
            createPathResolver fs themePath isMinified modulePath =
              pathJoin (pathJoin themePath v) modulePath)) := by
  cases hr : fsRead fs (mapFileName themePath isMinified) with
  | none =>
    refine ⟨fun _ => ?_, fun src hsrc => ?_⟩
    · unfold createPathResolver
      rw [hr]
      rfl
    · cases hsrc
  | some s =>
    refine ⟨fun habs => ?_, fun src hsrc => ?_⟩
    · cases habs
    · cases hsrc
      constructor
      · intro hempty
        unfold createPathResolver
        rw [hr]
        show mappedModulePath themePath modulePath (extractBaseUrlInterceptor s.ast) =
          pathJoin themePath modulePath
        unfold mappedModulePath
        rw [hempty]
        have : truthy (assocLookup ([] : List (LC × LC)) modulePath) = false := by
          simp [assocLookup, truthy]
        rw [if_pos (by simp [this])]
        rfl
      · intro v hv
        unfold createPathResolver
        rw [hr]
        show mappedModulePath themePath modulePath (extractBaseUrlInterceptor s.ast) =
          pathJoin (pathJoin themePath v) modulePath
        unfold mappedModulePath
        rw [hv]
        by_cases hve : v = []
        · subst hve
          have ht : truthy (some ([] : LC)) = false := by simp [truthy]
          rw [if_pos (by simp [ht])]
          unfold defaultModulePath
          rw [pathJoin_nil_right]
        · have ht : truthy (some v) = true := by simp [truthy, hve]
          rw [if_neg (by simp [ht])]
          simp

/-- A concrete parsed requirejs map manifest:
`require.config({config: {baseUrlInterceptor: {"js/x": "v1"}}});`. -/
def mapManifestAst : Jx :=
  .seqE (.jcons
    (.call
      (.member (.ident "require".data 0) (.ident "config".data 8) false 0)
      (.jcons
        (.objE (.jcons
          (.propNode false (.ident "config".data 16)
            (.objE (.jcons
              (.propNode false (.ident "baseUrlInterceptor".data 30)
                (.objE (.jcons
                  (.propNode false (.strLit "js/x".data 52) (.strLit "v1".data 60))
                  .jnil) 50))
              .jnil) 28))
          .jnil) 15)
        .jnil)
      0)
    .jnil)

/-- A filesystem carrying that manifest for the target `/r`. -/
def mapManifestFs : Fs :=
  [(mapFileName "/r".data false, .src ⟨"mapfile".data, some mapManifestAst⟩)]

/-- C7 (witness): at the concrete manifest the mapped logical path `js/x`
resolves through the `v1` prefix, and with no manifest at all the resolver
is the identity join. -/
theorem createPathResolver_spec_witness :
    createPathResolver mapManifestFs "/r".data false "js/x".data =
      pathJoin (pathJoin "/r".data "v1".data) "js/x".data
    ∧ createPathResolver ([] : Fs) "/r".data false "js/y".data =
        pathJoin "/r".data "js/y".data :=
  ⟨(((createPathResolver_spec mapManifestFs "/r".data "js/x".data false).2
      ⟨"mapfile".data, some mapManifestAst⟩ (by decide)).2 "v1".data (by decide)),
   (createPathResolver_spec ([] : Fs) "/r".data "js/y".data false).1 (by decide)⟩

/-! ## Claim C8 — pass-through of named definitions -/

/-- A source consisting of one named definition: `define('a');`. -/
def namedDefineSource : JsSource :=
  ⟨"define(\x27a\x27);".data,
   some (.seqE (.jcons (.call (.ident "define".data 0)
     (.jcons (.strLit "a".data 7) .jnil) 0) .jnil))⟩

/-- A source containing a named definition followed by an anonymous one:
`define('m');define([]);` (the array literal starts at offset 19). -/
def mixedDefineSource : JsSource :=
  ⟨"define(\x27m\x27);define([]);".data,
   some (.seqE (.jcons
     (.call (.ident "define".data 0) (.jcons (.strLit "m".data 7) .jnil) 0)
     (.jcons (.call (.ident "define".data 12) (.jcons (.arrayE .jnil 19) .jnil) 12)
       .jnil)))⟩

/-- C8 (counterexample): a script-path module whose source *contains* a
named `define` call is not always returned byte-identical — an anonymous
`define` in the same source triggers the name-insertion rewrite, and a
`text!`-tagged module id triggers the text wrapping even for a `.js`
path. -/
theorem moduleWrapper_not_pass_through :
    moduleWrapper "m".data mixedDefineSource "a.js".data ≠ mixedDefineSource.text
    ∧ moduleWrapper "text!m".data namedDefineSource "a.js".data ≠
        namedDefineSource.text := by
  decide

/-- C8 (amended): a module whose id carries no text-plugin tag and whose
resolved path is a script file (so `isText` rejects it), whose parsed
source contains at least one `define` call, **all** of whose `define`
calls are named (none has a non-string-literal first argument), is
returned byte-identical by the dispatcher. -/
theorem moduleWrapper_named_pass_through (name path : LC) (src : JsSource)
    (a : Jx) (hast : src.ast = some a)
    (htext : isText name path = false)
    (hdef : (collectCalls a).any isDefineCallNode = true)
    (hnamed : ∀ c ∈ collectCalls a, isAnonDefineNode c = false) :
    moduleWrapper name src path = src.text := by
  unfold moduleWrapper
  rw [htext]
  have hnonamd : isNonAmd src = false := by
    unfold isNonAmd
    rw [hast]
    simp [hdef]
  have hanon : isAnonymousAmd src = false := by
    unfold isAnonymousAmd
    rw [hast]
    rw [List.any_eq_false]
    intro c hc
    simp [hnamed c hc]
  rw [hnonamd, hanon]
  simp

/-- C8 (witness for the amended theorem): the single-named-definition
source passes through unchanged. -/
theorem moduleWrapper_named_pass_through_witness :
    moduleWrapper "a".data namedDefineSource "x.js".data = namedDefineSource.text :=
  moduleWrapper_named_pass_through "a".data "x.js".data namedDefineSource _
    rfl (by decide) (by decide) (by decide)

/-! ## Claim C10 — unparseable sources are wrapped as legacy scripts -/

/-- C10: the normalizer is a total function, and any script-module source
whose parse failed in both dialects (`ast = none`) is classified as legacy
(non-AMD) and returned wrapped in the named shim-lookup definition — never
an error. -/
theorem moduleWrapper_unparseable_wrapped (name path body : LC)
    (htext : isText name path = false) :
    moduleWrapper name ⟨body, none⟩ path = wrapNonAmd name body := by
  unfold moduleWrapper
  rw [htext]
  simp [isNonAmd]

/-- C10 (witness): a syntactically invalid fragment resolved as a plain
script file is wrapped in the shim-lookup definition. -/
theorem moduleWrapper_unparseable_wrapped_witness :
    moduleWrapper "legacy".data ⟨"function(".data, none⟩ "lib/old.js".data =
      wrapNonAmd "legacy".data "function(".data :=
  moduleWrapper_unparseable_wrapped "legacy".data "lib/old.js".data
    "function(".data (by decide)

/-! ## Claim C9 — per-module skips and the empty-bundle guard -/

/-- C9: for every filesystem, locale, minification state, bundle and task
completion schedule: the bundle file is written exactly when at least one
module task succeeded; a module whose physical file resolves to neither
variant contributes nothing; and removing a failed module from the
schedule leaves the accumulated sources unchanged — the failure of one
module never affects the rest of the bundle. -/
theorem processBundle_skip_semantics (fs : Fs) (localePath : LC)
    (isMinifyOn : Bool) (bundle : JBundle) (sched : List LC) :
    (bundleWritten fs localePath isMinifyOn bundle sched = true ↔
      ∃ n ∈ sched, (moduleOutcome fs localePath isMinifyOn bundle n).isSome = true)
    ∧ (∀ n, resolvedPathOf fs localePath isMinifyOn bundle n = none →
        moduleOutcome fs localePath isMinifyOn bundle n = none)
    ∧ (∀ n, moduleOutcome fs localePath isMinifyOn bundle n = none →
        bundleSources fs localePath isMinifyOn bundle sched =
          bundleSources fs localePath isMinifyOn bundle
            (sched.filter (fun x => decide (x ≠ n)))) := by
  refine ⟨?_, ?_, ?_⟩
  · unfold bundleWritten successCount
    rw [decide_eq_true_eq]
    constructor
    · intro h
      obtain ⟨x, hx⟩ := List.exists_mem_of_length_pos h
      rw [List.mem_filter] at hx
      exact ⟨x, hx.1, hx.2⟩
    · rintro ⟨n, hn, hsome⟩
      have hmem : n ∈ sched.filter
          (fun n => (moduleOutcome fs localePath isMinifyOn bundle n).isSome) :=
        List.mem_filter.mpr ⟨hn, hsome⟩
      exact List.length_pos.mpr (List.ne_nil_of_mem hmem)
  · intro n h
    unfold moduleOutcome
    rw [h]
  · intro n h
    have key : ∀ (l : List LC) (acc : List (LC × LC)),
        l.foldl
          (fun acc n =>
            match moduleOutcome fs localePath isMinifyOn bundle n with
            | none => acc
            | some (k, w) => jsObjSet acc k w)
          acc =
        (l.filter (fun x => decide (x ≠ n))).foldl
          (fun acc n =>
            match moduleOutcome fs localePath isMinifyOn bundle n with
            | none => acc
            | some (k, w) => jsObjSet acc k w)
          acc := by
      intro l
      induction l with
      | nil => intro acc; rfl
      | cons x rest ih =>
        intro acc
        by_cases hx : x = n
        · subst hx
          simp only [List.foldl_cons, List.filter_cons, h]
          rw [if_neg (by simp)]
          exact ih acc
        · simp only [List.foldl_cons, List.filter_cons]
          rw [if_pos (by simp [hx])]
          simp only [List.foldl_cons]
          exact ih _
    unfold bundleSources
    exact key sched []

/-- A filesystem where only the second module's file exists. -/
def skipScenarioFs : Fs := [("/r/b.js".data, .src ⟨"BBB".data, none⟩)]

/-- A bundle declaring one unresolvable module before one resolvable one. -/
def skipScenarioBundle : JBundle :=
  JBundle.mk "w".data [("ma".data, "a.js".data), ("mb".data, "b.js".data)]

/-- C9 (witness): with one missing and one present module file, the bundle
is still written. -/
theorem processBundle_skip_semantics_witness :
    bundleWritten skipScenarioFs "/r".data false skipScenarioBundle
      (moduleNamesOf skipScenarioBundle) = true :=
  ((processBundle_skip_semantics skipScenarioFs "/r".data false skipScenarioBundle
      (moduleNamesOf skipScenarioBundle)).1).mpr
    ⟨"mb".data, by decide, by decide⟩

/-! ## Claim C3 — output order follows completion order, not declaration
order -/

/-- A filesystem holding both module files of the order scenario. -/
def orderScenarioFs : Fs :=
  [("/r/a.js".data, .src ⟨"AAA".data, none⟩),
   ("/r/b.js".data, .src ⟨"BBB".data, none⟩)]

/-- A bundle declaring `ma` (from `a.js`) before `mb` (from `b.js`). -/
def orderScenarioBundle : JBundle :=
  JBundle.mk "x".data [("ma".data, "a.js".data), ("mb".data, "b.js".data)]

/-- C3: the `sources` accumulator of `processBundle` is keyed by insertion
order, which is the completion order of the concurrent reads: under the
reachable schedule in which the second declared module's reads finish
first, the output key order is reversed relative to declaration order, so
output order does not equal declaration order for every completion
schedule. -/
theorem processBundle_order_depends_on_schedule :
    (["mb".data, "ma".data] : List LC).Perm (moduleNamesOf orderScenarioBundle)
    ∧ (bundleSources orderScenarioFs "/r".data false orderScenarioBundle
        ["mb".data, "ma".data]).map Prod.fst =
      ["../b.js".data, "../a.js".data]
    ∧ (bundleSources orderScenarioFs "/r".data false orderScenarioBundle
        ["mb".data, "ma".data]).map Prod.fst ≠
      (bundleSources orderScenarioFs "/r".data false orderScenarioBundle
        (moduleNamesOf orderScenarioBundle)).map Prod.fst := by
  refine ⟨List.Perm.swap _ _ _, by decide, by decide⟩

/-! ## Claim C1 — no staging, no rename: mixed live states are reachable -/

/-- The deployment scenario: a locale whose live `magepack` directory holds
a complete previous bundle set (`OLD-A`, `OLD-B`) while both module source
files exist. -/
def deployScenarioFs : Fs :=
  [("/r/a.js".data, .src ⟨"AAA".data, none⟩),
   ("/r/b.js".data, .src ⟨"BBB".data, none⟩),
   ("/r/magepack/bundle-a.js".data, .src ⟨"OLD-A".data, none⟩),
   ("/r/magepack/bundle-b.js".data, .src ⟨"OLD-B".data, none⟩)]

/-- The two-bundle configuration of the deployment scenario. -/
def deployScenarioConfig : List JBundle :=
  [JBundle.mk "a".data [("ma".data, "a.js".data)],
   JBundle.mk "b".data [("mb".data, "b.js".data)]]

/-- Options with minification and source maps off. -/
def plainOptions : JOptions := ⟨false, none, false⟩

/-- The deployment trace of the scenario. -/
def deployScenarioOps : List FsOp :=
  processLocaleOps deployScenarioFs "/r".data plainOptions false deployScenarioConfig

/-- C1: the deployment flow of `processLocale` contains no rename at all —
every bundle is written directly into the live `magepack` directory — and
the state reached after the first bundle write holds the **new** content
for `bundle-a.js` next to the **old** content for `bundle-b.js`: a mix of
the previous and the new bundle set is browser-observable mid-run. -/
theorem processLocale_mixed_live_state_reachable :
    deployScenarioOps.all (fun o => !o.isRename) = true
    ∧ fileTextAt (applyOps deployScenarioFs (deployScenarioOps.take 2))
        "/r/magepack/bundle-b.js".data = some "OLD-B".data
    ∧ fileTextAt (applyOps deployScenarioFs (deployScenarioOps.take 2))
        "/r/magepack/bundle-a.js".data ≠ some "OLD-A".data
    ∧ fileTextAt (applyOps deployScenarioFs (deployScenarioOps.take 2))
        "/r/magepack/bundle-a.js".data ≠ none := by
  decide
